import Mathlib

/-!
Verification development for the tokio-cron-scheduler core, as specified in
the repository's design document. The scheduler library itself is not part
of the checked-in sources (only the example `examples/lib.rs` exercising its
surface is), so the core components — Trigger Engine, Job Registry,
Notification Registry, Scheduler Loop, Execution Dispatcher, Shutdown
Coordinator — are modelled here from the specification text.

Instants and durations are naturals (seconds since the Unix epoch).
-/

namespace TokioCron

/-- Modelled from the spec: a parsed six-field cron expression
(seconds, minutes, hours, day-of-month, month, day-of-week); each field is
the list of allowed values. The scheduler library's cron type is not in
`src/`. -/
structure CronExpr where
  seconds : List Nat
  minutes : List Nat
  hours : List Nat
  doms : List Nat
  months : List Nat
  dows : List Nat
deriving DecidableEq, Repr

/-- Modelled from the spec: the tagged schedule variant
`{Cron(expression), Interval(duration), OneShot(instant)}`. -/
inductive Schedule where
  | cron (e : CronExpr)
  | interval (d : Nat)
  | oneShot (i : Nat)
deriving DecidableEq, Repr

/-! ### Calendar decomposition of an instant

The cron matcher needs the second, minute, hour, day-of-month, month and
day-of-week of an instant. Days are converted to a civil date with the
standard era-based algorithm (eras of 146097 days = 400 Gregorian years). -/

/-- Seconds-of-minute field of an instant. -/
def secOf (t : Nat) : Nat := t % 60

/-- Minutes field of an instant. -/
def minOf (t : Nat) : Nat := t / 60 % 60

/-- Hours field of an instant. -/
def hourOf (t : Nat) : Nat := t / 3600 % 24

/-- Days since the Unix epoch. -/
def daysOf (t : Nat) : Nat := t / 86400

/-- Day of week of a day number: 0 = Sunday (1970-01-01 was a Thursday). -/
def dowOfDays (days : Nat) : Nat := (days + 4) % 7

/-- Day-of-era: position of the day inside its 400-year era, the era origin
being 0000-03-01 (719468 days before the Unix epoch). -/
def doeOf (days : Nat) : Nat := (days + 719468) % 146097

/-- Year-of-era, 0..399, of a day-of-era. -/
def yoeOf (doe : Nat) : Nat :=
  (doe - doe / 1460 + doe / 36524 - doe / 146096) / 365

/-- Day-of-year (March-based) of a day-of-era. -/
def doyOf (doe : Nat) : Nat :=
  doe - (365 * yoeOf doe + yoeOf doe / 4 - yoeOf doe / 100)

/-- March-based month index 0..11 of a day-of-era. -/
def mpOf (doe : Nat) : Nat := (5 * doyOf doe + 2) / 153

/-- Civil day-of-month (1..31) of a day number. -/
def domOfDays (days : Nat) : Nat :=
  doyOf (doeOf days) - (153 * mpOf (doeOf days) + 2) / 5 + 1

/-- Civil month (1..12) of a day number. -/
def monthOfDays (days : Nat) : Nat :=
  if mpOf (doeOf days) < 10 then mpOf (doeOf days) + 3 else mpOf (doeOf days) - 9

/-- Modelled from the spec: an instant matches a cron expression when every
one of the six fields accepts the corresponding component of the instant
("matching all fields"). -/
def cronMatches (e : CronExpr) (t : Nat) : Bool :=
  e.seconds.contains (secOf t) &&
  e.minutes.contains (minOf t) &&
  e.hours.contains (hourOf t) &&
  e.doms.contains (domOfDays (daysOf t)) &&
  e.months.contains (monthOfDays (daysOf t)) &&
  e.dows.contains (dowOfDays (daysOf t))

/-- The full period of the cron matcher in seconds: 146097 days, one
400-year Gregorian cycle. All six field decompositions repeat with this
period. -/
def cronPeriod : Nat := 146097 * 86400

/-- Linear search for the first instant in `[u, u + fuel)` matching `e`. -/
def cronSearch (e : CronExpr) : Nat → Nat → Option Nat
  | 0, _ => none
  | fuel + 1, u => if cronMatches e u then some u else cronSearch e fuel (u + 1)

/-- Modelled from the spec: `Cron(expr)` "returns the earliest instant
strictly after `after` matching all fields". Two full periods of search
suffice for any satisfiable expression. -/
def cronNextFire (e : CronExpr) (after : Nat) : Option Nat :=
  cronSearch e (2 * cronPeriod) (after + 1)

/-- Modelled from the spec: the Trigger Engine contract
`next_fire(schedule, after) -> instant | None`; `Interval(duration)` returns
`after + duration`; `OneShot(instant)` returns `instant` if
`instant > after`, else `None`. -/
def nextFire : Schedule → Nat → Option Nat
  | .cron e, after => cronNextFire e after
  | .interval d, after => some (after + d)
  | .oneShot i, after => if after < i then some i else none

/-- A cron expression can match some instant: by periodicity it is enough to
scan one full period. The spec calls an expression that "cannot match any
future instant" unsatisfiable; this is the construction-time check. -/
def cronSatisfiable (e : CronExpr) : Bool :=
  (cronSearch e cronPeriod 0).isSome

/-! ### Parsing of the textual six-field expression -/

/-- The values `lo, lo+step, ...` up to `hi`. -/
def rangeVals (lo hi step : Nat) : List Nat :=
  (List.range (hi + 1 - lo)).filterMap
    (fun k => if k % step == 0 then some (lo + k) else none)

/-- Split a character list on a separator character. -/
def splitChars (sep : Char) : List Char → List (List Char)
  | [] => [[]]
  | c :: rest =>
    if c = sep then [] :: splitChars sep rest
    else
      match splitChars sep rest with
      | [] => [[c]]
      | g :: gs => (c :: g) :: gs

/-- The numeric value of a decimal digit character. -/
def charDigit (c : Char) : Option Nat :=
  if 48 ≤ c.toNat && c.toNat ≤ 57 then some (c.toNat - 48) else none

/-- Parse a non-empty all-digit character list as a natural number. -/
def natOfChars : List Char → Option Nat
  | [] => none
  | cs =>
    cs.foldl (fun acc c => acc.bind fun n => (charDigit c).map fun d => n * 10 + d)
      (some 0)

/-- Modelled from the spec: one atom of a cron field, with the standard
grammar `*`, `n`, `a-b`, optionally followed by `/step`; values must lie in
the field's `[lo, hi]` range and a step must be positive. -/
def parseAtom (lo hi : Nat) (a : List Char) : Option (List Nat) :=
  match splitChars '/' a with
  | [b] =>
    if b = ['*'] then some (rangeVals lo hi 1)
    else
      match splitChars '-' b with
      | [x] =>
        match natOfChars x with
        | some n => if lo ≤ n && n ≤ hi then some [n] else none
        | none => none
      | [x, y] =>
        match natOfChars x, natOfChars y with
        | some m, some n =>
          if lo ≤ m && m ≤ n && n ≤ hi then some (rangeVals m n 1) else none
        | _, _ => none
      | _ => none
  | [b, st] =>
    match natOfChars st with
    | some s =>
      if s == 0 then none
      else if b = ['*'] then some (rangeVals lo hi s)
      else
        match splitChars '-' b with
        | [x] =>
          match natOfChars x with
          | some n => if lo ≤ n && n ≤ hi then some (rangeVals n hi s) else none
          | none => none
        | [x, y] =>
          match natOfChars x, natOfChars y with
          | some m, some n =>
            if lo ≤ m && m ≤ n && n ≤ hi then some (rangeVals m n s) else none
          | _, _ => none
        | _ => none
    | none => none
  | _ => none

/-- A cron field: a comma-separated list of atoms, their values unioned. -/
def parseField (lo hi : Nat) (f : List Char) : Option (List Nat) :=
  ((splitChars ',' f).mapM (parseAtom lo hi)).map List.flatten

/-- Modelled from the spec: the six-field cron grammar (seconds 0-59,
minutes 0-59, hours 0-23, day-of-month 1-31, month 1-12, day-of-week 0-6
with 0 = Sunday); fields are separated by whitespace. Returns `none` for a
syntactically malformed expression. -/
def parseCron (s : String) : Option CronExpr :=
  match (splitChars ' ' s.data).filter (fun f => !f.isEmpty) with
  | [f1, f2, f3, f4, f5, f6] =>
    match parseField 0 59 f1, parseField 0 59 f2, parseField 0 23 f3,
          parseField 1 31 f4, parseField 1 12 f5, parseField 0 6 f6 with
    | some a, some b, some c, some d, some e, some f =>
      some ⟨a, b, c, d, e, f⟩
    | _, _, _, _, _, _ => none
  | _ => none

/-- Modelled from the spec: the error taxonomy of §7. -/
inductive SchedulerError where
  | invalidSchedule
  | notFound
  | duplicateId
  | alreadyStarted
  | notRunning
  | bodyExecution
deriving DecidableEq, Repr

/-- Modelled from the spec: `Job::new(expr, body)` parses the six-field
expression at construction and fails with `InvalidScheduleError` when it is
syntactically malformed or cannot match any future instant; the error is
surfaced at job construction, never at dispatch time. -/
def jobNewCron (s : String) : Except SchedulerError Schedule :=
  match parseCron s with
  | none => Except.error SchedulerError.invalidSchedule
  | some e =>
    if cronSatisfiable e then Except.ok (Schedule.cron e)
    else Except.error SchedulerError.invalidSchedule

/-- Modelled from the spec: `Job::new_repeated(duration, body)` builds an
`Interval` schedule; any non-negative duration is valid. -/
def jobNewRepeated (d : Nat) : Except SchedulerError Schedule :=
  Except.ok (Schedule.interval d)

/-- Modelled from the spec: `Job::new_one_shot(duration, body)` builds a
`OneShot` schedule firing `duration` after the current instant. -/
def jobNewOneShot (d : Nat) (now : Nat) : Except SchedulerError Schedule :=
  Except.ok (Schedule.oneShot (now + d))

/-- Modelled from the spec: a schedule is valid when its construction
succeeds; for cron this is satisfiability, intervals and one-shots are
always valid. -/
def scheduleValid : Schedule → Prop
  | .cron e => cronSatisfiable e = true
  | .interval _ => True
  | .oneShot _ => True

/-- Order on optional fire instants, `none` ("never fires") being largest;
this is the order in which the spec's monotonicity requirement is read. -/
def optLE : Option Nat → Option Nat → Prop
  | some a, some b => a ≤ b
  | _, none => True
  | none, some _ => False

/-! ### Properties of the linear search -/

theorem cronSearch_eq_some (e : CronExpr) (fuel : Nat) :
    ∀ u s : Nat, cronSearch e fuel u = some s →
      u ≤ s ∧ s < u + fuel ∧ cronMatches e s = true ∧
      ∀ v, u ≤ v → v < s → cronMatches e v = false := by
  induction fuel with
  | zero => intro u s h; simp [cronSearch] at h
  | succ n ih =>
    intro u s h
    cases hm : cronMatches e u with
    | true =>
      simp [cronSearch, hm] at h
      subst h
      exact ⟨Nat.le_refl u, by omega, hm, fun v hv1 hv2 => absurd hv1 (by omega)⟩
    | false =>
      simp [cronSearch, hm] at h
      obtain ⟨h1, h2, h3, h4⟩ := ih (u + 1) s h
      refine ⟨by omega, by omega, h3, ?_⟩
      intro v hv1 hv2
      rcases Nat.eq_or_lt_of_le hv1 with hv | hv
      · rw [← hv]; exact hm
      · exact h4 v (by omega) hv2

theorem cronSearch_isSome_of_matches (e : CronExpr) (fuel : Nat) :
    ∀ u s : Nat, u ≤ s → s < u + fuel → cronMatches e s = true →
      (cronSearch e fuel u).isSome = true := by
  induction fuel with
  | zero => intro u s h1 h2 _; omega
  | succ n ih =>
    intro u s h1 h2 hm
    cases hu : cronMatches e u with
    | true => simp [cronSearch, hu]
    | false =>
      have hne : u ≠ s := fun h => by rw [h, hm] at hu; cases hu
      simp only [cronSearch, hu, Bool.false_eq_true, if_false]
      exact ih (u + 1) s (by omega) (by omega) hm

/-! ### Periodicity of the six field decompositions -/

theorem secOf_add_period (t : Nat) : secOf (t + cronPeriod) = secOf t := by
  show (t + cronPeriod) % 60 = t % 60
  have h : cronPeriod = 60 * 210379680 := by norm_num [cronPeriod]
  rw [h, Nat.add_mul_mod_self_left]

theorem minOf_add_period (t : Nat) : minOf (t + cronPeriod) = minOf t := by
  show (t + cronPeriod) / 60 % 60 = t / 60 % 60
  have h : cronPeriod = 60 * (60 * 3506328) := by norm_num [cronPeriod]
  rw [h, Nat.add_mul_div_left _ _ (by norm_num : (0:ℕ) < 60),
    Nat.add_mul_mod_self_left]

theorem hourOf_add_period (t : Nat) : hourOf (t + cronPeriod) = hourOf t := by
  show (t + cronPeriod) / 3600 % 24 = t / 3600 % 24
  have h : cronPeriod = 3600 * (24 * 146097) := by norm_num [cronPeriod]
  rw [h, Nat.add_mul_div_left _ _ (by norm_num : (0:ℕ) < 3600),
    Nat.add_mul_mod_self_left]

theorem daysOf_add_period (t : Nat) :
    daysOf (t + cronPeriod) = daysOf t + 146097 := by
  show (t + cronPeriod) / 86400 = t / 86400 + 146097
  have h : cronPeriod = 86400 * 146097 := by norm_num [cronPeriod]
  rw [h, Nat.add_mul_div_left _ _ (by norm_num : (0:ℕ) < 86400)]

theorem dowOfDays_add_cycle (d : Nat) :
    dowOfDays (d + 146097) = dowOfDays d := by
  show (d + 146097 + 4) % 7 = (d + 4) % 7
  have h : d + 146097 + 4 = d + 4 + 7 * 20871 := by omega
  rw [h, Nat.add_mul_mod_self_left]

theorem doeOf_add_cycle (d : Nat) : doeOf (d + 146097) = doeOf d := by
  show (d + 146097 + 719468) % 146097 = (d + 719468) % 146097
  have h : d + 146097 + 719468 = d + 719468 + 146097 := by omega
  rw [h, Nat.add_mod_right]

theorem domOfDays_add_cycle (d : Nat) :
    domOfDays (d + 146097) = domOfDays d := by
  unfold domOfDays
  rw [doeOf_add_cycle]

theorem monthOfDays_add_cycle (d : Nat) :
    monthOfDays (d + 146097) = monthOfDays d := by
  unfold monthOfDays
  rw [doeOf_add_cycle]

theorem cronMatches_add_period (e : CronExpr) (t : Nat) :
    cronMatches e (t + cronPeriod) = cronMatches e t := by
  unfold cronMatches
  rw [secOf_add_period, minOf_add_period, hourOf_add_period, daysOf_add_period,
    domOfDays_add_cycle, monthOfDays_add_cycle, dowOfDays_add_cycle]

theorem cronMatches_add_mul_period (e : CronExpr) (t k : Nat) :
    cronMatches e (t + k * cronPeriod) = cronMatches e t := by
  induction k with
  | zero => simp
  | succ n ih =>
    have h : t + (n + 1) * cronPeriod = t + n * cronPeriod + cronPeriod := by ring
    rw [h, cronMatches_add_period, ih]

/-- A satisfiable cron expression has a next fire instant after every
instant: the witness in the first period is shifted past `t`, and two
periods of search suffice to find it. -/
theorem cronNextFire_isSome (e : CronExpr) (t : Nat)
    (hs : cronSatisfiable e = true) : ∃ r, cronNextFire e t = some r := by
  unfold cronSatisfiable at hs
  obtain ⟨s0, hs0⟩ : ∃ s0, cronSearch e cronPeriod 0 = some s0 := by
    cases h : cronSearch e cronPeriod 0 with
    | none => rw [h] at hs; simp at hs
    | some v => exact ⟨v, rfl⟩
  obtain ⟨_, hlt, hm, _⟩ := cronSearch_eq_some e cronPeriod 0 s0 hs0
  have hP : 0 < cronPeriod := by norm_num [cronPeriod]
  have hdm := Nat.div_add_mod t cronPeriod
  have hmod := Nat.mod_lt t hP
  set s : Nat := s0 + (t / cronPeriod + 1) * cronPeriod with hsdef
  have hms : cronMatches e s = true := by
    rw [hsdef, cronMatches_add_mul_period, hm]
  have hts : t < s := by
    have : (t / cronPeriod + 1) * cronPeriod = cronPeriod * (t / cronPeriod) + cronPeriod := by
      ring
    omega
  have hsb : s < t + 1 + 2 * cronPeriod := by
    have : (t / cronPeriod + 1) * cronPeriod = cronPeriod * (t / cronPeriod) + cronPeriod := by
      ring
    omega
  have hsome := cronSearch_isSome_of_matches e (2 * cronPeriod) (t + 1) s
    (by omega) (by omega) hms
  unfold cronNextFire
  cases h : cronSearch e (2 * cronPeriod) (t + 1) with
  | none => rw [h] at hsome; simp at hsome
  | some v => exact ⟨v, rfl⟩

/-- Characterization of a returned cron next-fire instant: it is strictly
after `t`, matches, and nothing between `t` and it matches. -/
theorem cronNextFire_eq_some (e : CronExpr) (t r : Nat)
    (h : cronNextFire e t = some r) :
    t < r ∧ cronMatches e r = true ∧
      ∀ v, t < v → v < r → cronMatches e v = false := by
  have h2 := cronSearch_eq_some e (2 * cronPeriod) (t + 1) r h
  exact ⟨by omega, h2.2.2.1, fun v hv1 hv2 => h2.2.2.2 v (by omega) hv2⟩

/-- The all-wildcard six-field expression, the parse of `"* * * * * *"`. -/
def wildcardCron : CronExpr :=
  ⟨rangeVals 0 59 1, rangeVals 0 59 1, rangeVals 0 23 1,
   rangeVals 1 31 1, rangeVals 1 12 1, rangeVals 0 6 1⟩

/-- C2: for every valid six-field cron expression (one that parses and is
satisfiable) and every instant `t`, `next_fire(Cron(e), t)` returns the
earliest instant strictly greater than `t` satisfying all six field
constraints; a syntactically malformed or unsatisfiable expression fails at
job construction with `InvalidScheduleError` (dispatch — `nextFire` — has no
error channel at all, so the error can only surface at construction). -/
theorem cron_next_fire_correct (s : String) (e : CronExpr) (t : Nat)
    (hp : parseCron s = some e) (hsat : cronSatisfiable e = true) :
    (∃ r, nextFire (Schedule.cron e) t = some r ∧ t < r ∧
      cronMatches e r = true ∧ ∀ v, t < v → v < r → cronMatches e v = false) ∧
    jobNewCron s = Except.ok (Schedule.cron e) ∧
    (∀ s2 : String, parseCron s2 = none →
      jobNewCron s2 = Except.error SchedulerError.invalidSchedule) ∧
    (∀ (s2 : String) (e2 : CronExpr), parseCron s2 = some e2 →
      cronSatisfiable e2 = false →
      jobNewCron s2 = Except.error SchedulerError.invalidSchedule) := by
  refine ⟨?_, ?_, ?_, ?_⟩
  · obtain ⟨r, hr⟩ := cronNextFire_isSome e t hsat
    obtain ⟨h1, h2, h3⟩ := cronNextFire_eq_some e t r hr
    exact ⟨r, hr, h1, h2, h3⟩
  · unfold jobNewCron
    rw [hp]
    simp [hsat]
  · intro s2 h
    unfold jobNewCron
    rw [h]
  · intro s2 e2 h hf
    unfold jobNewCron
    rw [h]
    simp [hf]

/-- Closed instance of C2 at the expression `"* * * * * *"` and `t = 0`. -/
theorem cron_next_fire_correct_witness :
    ∃ r, nextFire (Schedule.cron wildcardCron) 0 = some r ∧ 0 < r ∧
      cronMatches wildcardCron r = true ∧
      ∀ v, 0 < v → v < r → cronMatches wildcardCron v = false :=
  (cron_next_fire_correct "* * * * * *" wildcardCron 0 (by rfl) (by rfl)).1

/-- C3: for a fixed valid schedule, `next_fire` is monotone in the `after`
instant (reading `none` as "never fires", the largest value): no backward
jumps, so the loop never re-fires a past occurrence. -/
theorem next_fire_monotone (sch : Schedule) (t1 t2 : Nat) (h12 : t1 ≤ t2)
    (hv : scheduleValid sch) :
    optLE (nextFire sch t1) (nextFire sch t2) := by
  cases sch with
  | cron e =>
    obtain ⟨s1, hs1⟩ := cronNextFire_isSome e t1 hv
    obtain ⟨s2, hs2⟩ := cronNextFire_isSome e t2 hv
    have c1 := cronNextFire_eq_some e t1 s1 hs1
    have c2 := cronNextFire_eq_some e t2 s2 hs2
    show optLE (cronNextFire e t1) (cronNextFire e t2)
    rw [hs1, hs2]
    show s1 ≤ s2
    by_contra hlt
    have hf := c1.2.2 s2 (by omega) (by omega)
    rw [c2.2.1] at hf
    cases hf
  | interval d =>
    show t1 + d ≤ t2 + d
    omega
  | oneShot i =>
    show optLE (if t1 < i then some i else none) (if t2 < i then some i else none)
    by_cases h2 : t2 < i
    · have h1 : t1 < i := by omega
      simp [h1, h2, optLE]
    · by_cases h1 : t1 < i
      · simp [h1, h2, optLE]
      · simp [h1, h2, optLE]

/-- Closed instance of C3 on an interval schedule. -/
theorem next_fire_monotone_witness :
    3 ≤ 7 ∧ optLE (nextFire (Schedule.interval 5) 3) (nextFire (Schedule.interval 5) 7) :=
  ⟨by decide, next_fire_monotone (Schedule.interval 5) 3 7 (by decide) trivial⟩

/-- C4: for every non-negative duration `d` and instant `t`,
`next_fire(Interval(d), t)` is exactly `t + d`. -/
theorem interval_next_fire_exact (d t : Nat) :
    nextFire (Schedule.interval d) t = some (t + d) := rfl

/-! ### Scheduler state: Job Registry, Notification Registry, run state -/

/-- Modelled from the spec: per-job execution state
`{Scheduled, Running, Stopped}`. -/
inductive JobState where
  | scheduled
  | running
  | stopped
deriving DecidableEq, Repr

/-- Modelled from the spec: one record of the Job Registry; `removalPending`
marks a job whose removal was requested while its body was in flight
(deferred removal). -/
structure JobRecord where
  schedule : Schedule
  state : JobState
  nextFireAt : Option Nat
  lastFireAt : Option Nat
  removalPending : Bool
deriving DecidableEq, Repr

/-- Modelled from the spec: notification lifecycle event kinds
`{OnStart, OnDone, OnRemoved}`. -/
inductive NotifyKind where
  | onStart
  | onDone
  | onRemoved
deriving DecidableEq, Repr

/-- Modelled from the spec: what a notification callback does to the shared
scheduler state when invoked; the example's callbacks either only log
(`noop`) or remove a notification from within their own firing. -/
inductive CbAct where
  | noop
  | removeNotif (jobId nid : Nat)
deriving DecidableEq, Repr

/-- Modelled from the spec: a registered callback bound to one job and one
event kind; removal clears `active` rather than deleting the entry. -/
structure Notification where
  nid : Nat
  jobId : Nat
  kind : NotifyKind
  callback : CbAct
  active : Bool
deriving DecidableEq, Repr

/-- Modelled from the spec: scheduler run state
`Created → Started → ShuttingDown → Stopped`. -/
inductive RunState where
  | created
  | started
  | shuttingDown
  | stopped
deriving DecidableEq, Repr

/-- Observable lifecycle events: a job body execution, a notification
callback firing, and the shutdown hook running. -/
inductive Event where
  | fired (jobId : Nat) (t : Nat)
  | notified (jobId nid : Nat) (kind : NotifyKind)
  | hookRan
deriving DecidableEq, Repr

/-- Modelled from the spec: the process-wide Scheduler object: run state,
the Job Registry (association list keyed by job id), the Notification
Registry, and the fresh-notification-id counter. -/
structure SchedState where
  runState : RunState
  jobs : List (Nat × JobRecord)
  notifs : List Notification
  nextNotifId : Nat
deriving DecidableEq, Repr

/-- Association-list lookup. -/
def lookupA : List (Nat × JobRecord) → Nat → Option JobRecord
  | [], _ => none
  | (k, r) :: rest, id => if k = id then some r else lookupA rest id

/-- Association-list update of every entry of a key. -/
def setA : List (Nat × JobRecord) → Nat → JobRecord → List (Nat × JobRecord)
  | [], _, _ => []
  | (k, r) :: rest, id, r2 =>
    if k = id then (k, r2) :: setA rest id r2 else (k, r) :: setA rest id r2

/-- Association-list deletion of a key. -/
def delA : List (Nat × JobRecord) → Nat → List (Nat × JobRecord)
  | [], _ => []
  | (k, r) :: rest, id =>
    if k = id then delA rest id else (k, r) :: delA rest id

/-- Physical lookup in the Job Registry. -/
def findJob (st : SchedState) (id : Nat) : Option JobRecord :=
  lookupA st.jobs id

/-- Logical view of a physical lookup result: a record marked for deferred
removal is invisible. -/
def lookupJobAux : Option JobRecord → Option JobRecord
  | some r => if r.removalPending then none else some r
  | none => none

/-- Modelled from the spec: registry lookup as callers observe it; an entry
marked for deferred removal is already "logically gone", so it is invisible
here. -/
def lookupJob (st : SchedState) (id : Nat) : Option JobRecord :=
  lookupJobAux (findJob st id)

/-- Replace the record of `id` in the registry. -/
def setJob (st : SchedState) (id : Nat) (r : JobRecord) : SchedState :=
  { st with jobs := setA st.jobs id r }

/-- Delete the record of `id` from the registry. -/
def delJob (st : SchedState) (id : Nat) : SchedState :=
  { st with jobs := delA st.jobs id }

/-- Modelled from the spec: a job is due when `next_fire <= now` and its
state is not `Running` (a logically removed entry is no longer seen). -/
def isDue (r : JobRecord) (now : Nat) : Bool :=
  match r.nextFireAt with
  | some nf => nf ≤ now && r.state ≠ JobState.running && !r.removalPending
  | none => false

/-- Modelled from the spec: `list_due(now)` returns all due jobs. -/
def listDue (st : SchedState) (now : Nat) : List Nat :=
  (st.jobs.filter (fun p => isDue p.2 now)).map (fun p => p.1)

/-- Modelled from the spec: `mark_running(id)`, the atomic compare-and-set
`Scheduled → Running`; returns whether this attempt won the transition. -/
def markRunning (st : SchedState) (id : Nat) : Bool × SchedState :=
  match findJob st id with
  | some r =>
    if r.state = JobState.scheduled then
      (true, setJob st id { r with state := JobState.running })
    else (false, st)
  | none => (false, st)

/-- Modelled from the spec: `mark_idle(id, new_next_fire)`, the transition
back to `Scheduled` with the recomputed next fire instant. -/
def markIdle (st : SchedState) (id : Nat) (newNext : Option Nat) : SchedState :=
  match findJob st id with
  | some r =>
    setJob st id { r with state := JobState.scheduled, nextFireAt := newNext }
  | none => st

/-- Modelled from the spec: Notification Registry `add`: always succeeds,
even when the job id is not (yet) in the Job Registry — the notification is
stored detached. Returns the fresh notification id. -/
def notifAdd (st : SchedState) (jobId : Nat) (kind : NotifyKind) (cb : CbAct) :
    Nat × SchedState :=
  (st.nextNotifId,
   { st with
       notifs := st.notifs ++ [⟨st.nextNotifId, jobId, kind, cb, true⟩],
       nextNotifId := st.nextNotifId + 1 })

/-- Whether an active notification `(jobId, nid)` exists. -/
def notifActive (st : SchedState) (jobId nid : Nat) : Bool :=
  st.notifs.any (fun n => n.nid == nid && n.jobId == jobId && n.active)

/-- Modelled from the spec: Notification Registry `remove`: deactivates the
matching active notification (the entry itself stays, so an in-flight
dispatch is never invalidated) and returns whether one was found. -/
def notifRemove (st : SchedState) (jobId nid : Nat) : Bool × SchedState :=
  if notifActive st jobId nid then
    (true,
     { st with
         notifs := st.notifs.map fun n =>
           if n.nid == nid && n.jobId == jobId then { n with active := false }
           else n })
  else (false, st)

/-- Interpretation of a callback's action on the shared state. -/
def runCb : CbAct → SchedState → SchedState
  | CbAct.noop, st => st
  | CbAct.removeNotif j n, st => (notifRemove st j n).2

/-- Modelled from the spec: `dispatch(job_id, kind)` invokes every callback
active for the pair. The set of callbacks to fire is read once at dispatch
start; a removal performed by one of the callbacks only clears the `active`
flag checked on the next dispatch, it never mutates the list being
iterated. -/
def dispatchNotifs (st : SchedState) (jobId : Nat) (kind : NotifyKind) :
    List Event × SchedState :=
  let snapshot := st.notifs.filter fun n =>
    n.jobId == jobId && n.kind == kind && n.active
  (snapshot.map fun n => Event.notified jobId n.nid kind,
   snapshot.foldl (fun s n => runCb n.callback s) st)

/-- Modelled from the spec: `add(job)` inserts a new job in `Scheduled`
state with `next_fire` computed from the current clock; an explicitly
supplied pre-existing id fails with `DuplicateIdError`. -/
def addJob (st : SchedState) (id : Nat) (sch : Schedule) (now : Nat) :
    Except SchedulerError SchedState :=
  match findJob st id with
  | some _ => Except.error SchedulerError.duplicateId
  | none =>
    Except.ok { st with
      jobs := st.jobs ++
        [(id, ⟨sch, JobState.scheduled, nextFire sch now, none, false⟩)] }

/-- Modelled from the spec: `remove(id)`: fails with `NotFoundError` when
the id is (logically) absent. On success the entry is deleted at once when
the job is not `Running`, and is marked for deferred removal when it is —
the in-flight body is never interrupted, but the entry is logically gone
before `remove` returns; the `OnRemoved` callbacks for the id fire as the
final step, before `remove` returns. -/
def removeJobAux (st : SchedState) (id : Nat) :
    Option JobRecord → Except SchedulerError (List Event × SchedState)
  | none => Except.error SchedulerError.notFound
  | some r =>
    Except.ok (dispatchNotifs
      (if r.state = JobState.running then
        setJob st id { r with removalPending := true }
      else delJob st id) id NotifyKind.onRemoved)

def removeJob (st : SchedState) (id : Nat) :
    Except SchedulerError (List Event × SchedState) :=
  removeJobAux st id (lookupJob st id)

/-- Whether a schedule is the one-shot variant. -/
def isOneShotSched : Schedule → Bool
  | Schedule.oneShot _ => true
  | _ => false

/-- The completion steps applied to the looked-up record (`none` when the
job vanished, which leaves the state untouched). -/
def completeRunAux (st : SchedState) (id : Nat) (now : Nat) :
    Option JobRecord → List Event × SchedState
  | none => ([], st)
  | some r =>
    if r.removalPending then
      dispatchNotifs (delJob st id) id NotifyKind.onDone
    else
      if isOneShotSched r.schedule || (nextFire r.schedule now).isNone then
        ((dispatchNotifs (delJob st id) id NotifyKind.onRemoved).1 ++
          (dispatchNotifs (dispatchNotifs (delJob st id) id
            NotifyKind.onRemoved).2 id NotifyKind.onDone).1,
         (dispatchNotifs (dispatchNotifs (delJob st id) id
            NotifyKind.onRemoved).2 id NotifyKind.onDone).2)
      else
        dispatchNotifs (markIdle st id (nextFire r.schedule now)) id
          NotifyKind.onDone

/-- Modelled from the spec: the completion half of the Execution Dispatcher
(steps 4-6): recompute `next_fire` with the current instant as `after`;
when the schedule is one-shot, the next fire resolves to `None`, or removal
was deferred while running, the job leaves the registry (a one-shot or
exhausted schedule also fires `OnRemoved` here; a deferred removal already
fired them inside `remove`); otherwise `mark_idle` with the new instant.
`OnDone` notifications are dispatched last. -/
def completeRun (st : SchedState) (id : Nat) (now : Nat) :
    List Event × SchedState :=
  completeRunAux st id now (findJob st id)

/-- Dispatch continuation on the CAS outcome: a lost CAS skips the tick. -/
def dispatchJobAux (st : SchedState) (id : Nat) (now : Nat) :
    Bool × SchedState → List Event × SchedState
  | (false, _) => ([], st)
  | (true, st1) =>
    ((dispatchNotifs st1 id NotifyKind.onStart).1 ++ [Event.fired id now] ++
       (completeRun (dispatchNotifs st1 id NotifyKind.onStart).2 id now).1,
     (completeRun (dispatchNotifs st1 id NotifyKind.onStart).2 id now).2)

/-- Modelled from the spec: the Execution Dispatcher for one due job:
atomically CAS to `Running` — when the CAS fails the tick is skipped for
this job, quietly; then `OnStart` notifications, the body (observable as a
`fired` event), and the completion steps. -/
def dispatchJob (st : SchedState) (id : Nat) (now : Nat) :
    List Event × SchedState :=
  dispatchJobAux st id now (markRunning st id)

/-- Dispatch each job of a due list in turn. -/
def dispatchList : List Nat → SchedState → Nat → List Event × SchedState
  | [], st, _ => ([], st)
  | id :: rest, st, now =>
    ((dispatchJob st id now).1 ++
       (dispatchList rest (dispatchJob st id now).2 now).1,
     (dispatchList rest (dispatchJob st id now).2 now).2)

/-- Modelled from the spec: one tick of the Scheduler Loop: while `Started`
it hands every due job to the Execution Dispatcher; a tick with no due jobs
is a no-op, and no new dispatches happen outside `Started`. -/
def tick (st : SchedState) (now : Nat) : List Event × SchedState :=
  if st.runState = RunState.started then dispatchList (listDue st now) st now
  else ([], st)

/-- A run of the loop over a list of tick instants. -/
def runTicks : SchedState → List Nat → List Event × SchedState
  | st, [] => ([], st)
  | st, now :: rest =>
    ((tick st now).1 ++ (runTicks (tick st now).2 rest).1,
     (runTicks (tick st now).2 rest).2)

/-- Modelled from the spec: `start()` fails with `AlreadyStartedError`
outside `Created`. -/
def startSched (st : SchedState) : Except SchedulerError SchedState :=
  if st.runState = RunState.created then
    Except.ok { st with runState := RunState.started }
  else Except.error SchedulerError.alreadyStarted

/-- Drain phase of shutdown: complete one job when it is currently running,
else leave the state untouched. -/
def drainOneAux (st : SchedState) (id : Nat) (now : Nat) :
    Option JobRecord → List Event × SchedState
  | some r =>
    if r.state = JobState.running then completeRun st id now else ([], st)
  | none => ([], st)

def drainOne (st : SchedState) (id : Nat) (now : Nat) :
    List Event × SchedState :=
  drainOneAux st id now (findJob st id)

def drainList : List Nat → SchedState → Nat → List Event × SchedState
  | [], st, _ => ([], st)
  | id :: rest, st, now =>
    ((drainOne st id now).1 ++
       (drainList rest (drainOne st id now).2 now).1,
     (drainList rest (drainOne st id now).2 now).2)

/-- Modelled from the spec: the Shutdown Coordinator: from `Started`,
transition to `ShuttingDown` (no new dispatches), wait until no job is
`Running`, invoke the shutdown hook exactly once, transition to `Stopped`;
outside `Started` fail with `NotRunningError`. -/
def shutdown (st : SchedState) (now : Nat) :
    Except SchedulerError (List Event × SchedState) :=
  if st.runState = RunState.started then
    let st1 : SchedState := { st with runState := RunState.shuttingDown }
    let (ev, st2) := drainList (st1.jobs.map fun p => p.1) st1 now
    Except.ok (ev ++ [Event.hookRan], { st2 with runState := RunState.stopped })
  else Except.error SchedulerError.notRunning

/-- Modelled from the spec: `N` concurrent ticks racing to dispatch one job
linearize as a sequence of atomic `mark_running` compare-and-sets; the
count of successful attempts is the number of dispatches that proceed. -/
def casAttempts : Nat → SchedState → Nat → Nat × SchedState
  | 0, st, _ => (0, st)
  | n + 1, st, id =>
    let (won, st1) := markRunning st id
    let (c, st2) := casAttempts n st1 id
    ((if won then 1 else 0) + c, st2)

/-- Modelled from the example's usage: a `Job` value is a cloneable handle
naming the underlying job by its guid; the job itself lives in the shared
scheduler state. -/
structure JobHandle where
  guid : Nat
deriving DecidableEq, Repr

/-- Modelled from the example's usage: a `JobScheduler` value is a cloneable
handle to the shared scheduler state. -/
structure SchedulerHandle where
  sid : Nat
deriving DecidableEq, Repr

/-- `Clone` on a job handle: a new handle to the same underlying job. -/
def cloneJob (j : JobHandle) : JobHandle := ⟨j.guid⟩

/-- `Clone` on a scheduler handle: a new handle to the same scheduler. -/
def cloneScheduler (s : SchedulerHandle) : SchedulerHandle := ⟨s.sid⟩

/-- Modelled from the example's usage: removing an `OnStart` notification
through a job handle and a scheduler handle acts on the shared scheduler
state designated by the handles. -/
def onStartNotifRemoveVia (_sched : SchedulerHandle) (j : JobHandle)
    (st : SchedState) (nid : Nat) : Bool × SchedState :=
  notifRemove st j.guid nid

/-! ### Association-list lemmas -/

theorem lookupA_setA_self (l : List (Nat × JobRecord)) (id : Nat)
    (r r2 : JobRecord) (h : lookupA l id = some r) :
    lookupA (setA l id r2) id = some r2 := by
  induction l with
  | nil => simp [lookupA] at h
  | cons p rest ih =>
    obtain ⟨k, q⟩ := p
    by_cases hk : k = id
    · simp [lookupA, setA, hk]
    · simp [lookupA, setA, hk] at h ⊢
      exact ih h

theorem lookupA_setA_ne (l : List (Nat × JobRecord)) (id j : Nat)
    (r2 : JobRecord) (h : j ≠ id) :
    lookupA (setA l id r2) j = lookupA l j := by
  induction l with
  | nil => rfl
  | cons p rest ih =>
    obtain ⟨k, q⟩ := p
    by_cases hk : k = id
    · subst hk
      simp [lookupA, setA, Ne.symm h, ih]
    · by_cases hj : k = j
      · simp [lookupA, setA, hk, hj, h]
      · simp [lookupA, setA, hk, hj, ih]

theorem lookupA_setA_none (l : List (Nat × JobRecord)) (id : Nat)
    (r2 : JobRecord) (h : lookupA l id = none) :
    lookupA (setA l id r2) id = none := by
  induction l with
  | nil => rfl
  | cons p rest ih =>
    obtain ⟨k, q⟩ := p
    by_cases hk : k = id
    · simp [lookupA, hk] at h
    · simp [lookupA, setA, hk] at h ⊢
      exact ih h

theorem lookupA_delA_self (l : List (Nat × JobRecord)) (id : Nat) :
    lookupA (delA l id) id = none := by
  induction l with
  | nil => rfl
  | cons p rest ih =>
    obtain ⟨k, q⟩ := p
    by_cases hk : k = id
    · simp [delA, hk, ih]
    · simp [delA, lookupA, hk, ih]

theorem lookupA_delA_ne (l : List (Nat × JobRecord)) (id j : Nat) (h : j ≠ id) :
    lookupA (delA l id) j = lookupA l j := by
  induction l with
  | nil => rfl
  | cons p rest ih =>
    obtain ⟨k, q⟩ := p
    by_cases hk : k = id
    · subst hk
      simp [delA, lookupA, Ne.symm h, ih]
    · by_cases hj : k = j
      · simp [delA, lookupA, hk, hj, h]
      · simp [delA, lookupA, hk, hj, ih]

theorem lookupA_none_not_mem (l : List (Nat × JobRecord)) (id : Nat)
    (h : lookupA l id = none) : ∀ r, (id, r) ∉ l := by
  induction l with
  | nil => simp
  | cons p rest ih =>
    obtain ⟨k, q⟩ := p
    intro r hmem
    by_cases hk : k = id
    · simp [lookupA, hk] at h
    · simp [lookupA, hk] at h
      rcases List.mem_cons.1 hmem with heq | hmem2
      · exact hk (by injection heq with h1 _; exact h1.symm)
      · exact ih h r hmem2

theorem lookupA_mem_map_fst (l : List (Nat × JobRecord)) (id : Nat)
    (r : JobRecord) (h : lookupA l id = some r) : id ∈ l.map (fun p => p.1) := by
  induction l with
  | nil => simp [lookupA] at h
  | cons p rest ih =>
    obtain ⟨k, q⟩ := p
    by_cases hk : k = id
    · simp [hk]
    · simp [lookupA, hk] at h
      simp [ih h]

/-! ### Shape lemmas: which parts of the state each operation touches -/

theorem notifRemove_jobs (st : SchedState) (j n : Nat) :
    (notifRemove st j n).2.jobs = st.jobs := by
  unfold notifRemove
  by_cases h : notifActive st j n
  · simp [h]
  · simp [h]

theorem notifRemove_runState (st : SchedState) (j n : Nat) :
    (notifRemove st j n).2.runState = st.runState := by
  unfold notifRemove
  by_cases h : notifActive st j n
  · simp [h]
  · simp [h]

theorem runCb_jobs (a : CbAct) (st : SchedState) : (runCb a st).jobs = st.jobs := by
  cases a with
  | noop => rfl
  | removeNotif j n => exact notifRemove_jobs st j n

theorem runCb_runState (a : CbAct) (st : SchedState) :
    (runCb a st).runState = st.runState := by
  cases a with
  | noop => rfl
  | removeNotif j n => exact notifRemove_runState st j n

theorem foldl_runCb_jobs (l : List Notification) (st : SchedState) :
    (l.foldl (fun s n => runCb n.callback s) st).jobs = st.jobs := by
  induction l generalizing st with
  | nil => rfl
  | cons n rest ih =>
    simp only [List.foldl_cons]
    rw [ih, runCb_jobs]

theorem foldl_runCb_runState (l : List Notification) (st : SchedState) :
    (l.foldl (fun s n => runCb n.callback s) st).runState = st.runState := by
  induction l generalizing st with
  | nil => rfl
  | cons n rest ih =>
    simp only [List.foldl_cons]
    rw [ih, runCb_runState]

theorem dispatchNotifs_jobs (st : SchedState) (j : Nat) (k : NotifyKind) :
    (dispatchNotifs st j k).2.jobs = st.jobs :=
  foldl_runCb_jobs _ st

theorem dispatchNotifs_runState (st : SchedState) (j : Nat) (k : NotifyKind) :
    (dispatchNotifs st j k).2.runState = st.runState :=
  foldl_runCb_runState _ st

theorem findJob_dispatchNotifs (st : SchedState) (j : Nat) (k : NotifyKind)
    (id : Nat) : findJob (dispatchNotifs st j k).2 id = findJob st id := by
  unfold findJob
  rw [dispatchNotifs_jobs]

/-- Every event a notification dispatch produces names the dispatched job
and kind, and comes from a notification stored at dispatch start. -/
theorem dispatchNotifs_events (st : SchedState) (j : Nat) (k : NotifyKind) :
    ∀ ev ∈ (dispatchNotifs st j k).1, ∃ n, n ∈ st.notifs ∧
      n.jobId = j ∧ n.kind = k ∧ n.active = true ∧
      ev = Event.notified j n.nid k := by
  intro ev hev
  unfold dispatchNotifs at hev
  simp only [List.mem_map, List.mem_filter] at hev
  obtain ⟨n, ⟨hmem, hcond⟩, hev⟩ := hev
  simp only [Bool.and_eq_true, beq_iff_eq] at hcond
  exact ⟨n, hmem, hcond.1.1, hcond.1.2, hcond.2, hev.symm⟩

/-- Every active notification of the dispatched `(job, kind)` pair fires. -/
theorem dispatchNotifs_fires_all (st : SchedState) (j : Nat) (k : NotifyKind) :
    ∀ n ∈ st.notifs, n.jobId = j → n.kind = k → n.active = true →
      Event.notified j n.nid k ∈ (dispatchNotifs st j k).1 := by
  intro n hmem hj hk ha
  unfold dispatchNotifs
  simp only [List.mem_map, List.mem_filter]
  exact ⟨n, ⟨hmem, by simp [hj, hk, ha]⟩, rfl⟩

/-! ### CAS lemmas and C1 -/

theorem markRunning_scheduled (st : SchedState) (id : Nat) (r : JobRecord)
    (hr : findJob st id = some r) (hs : r.state = JobState.scheduled) :
    markRunning st id = (true, setJob st id { r with state := JobState.running }) := by
  unfold markRunning
  rw [hr]
  simp [hs]

theorem markRunning_not_scheduled (st : SchedState) (id : Nat) (r : JobRecord)
    (hr : findJob st id = some r) (hs : r.state ≠ JobState.scheduled) :
    markRunning st id = (false, st) := by
  unfold markRunning
  rw [hr]
  simp [hs]

theorem markRunning_absent (st : SchedState) (id : Nat)
    (h : findJob st id = none) : markRunning st id = (false, st) := by
  unfold markRunning
  rw [h]

theorem casAttempts_running (n : Nat) (st : SchedState) (id : Nat)
    (r : JobRecord) (hr : findJob st id = some r)
    (hs : r.state = JobState.running) : casAttempts n st id = (0, st) := by
  induction n with
  | zero => rfl
  | succ m ih =>
    have hmr : markRunning st id = (false, st) :=
      markRunning_not_scheduled st id r hr (by rw [hs]; simp)
    simp [casAttempts, hmr, ih]

/-- C1: at most one execution of a job's body is in flight at a time: the
`mark_running` compare-and-set linearizes racing ticks, so from a
`Scheduled` job, any positive number of racing dispatch attempts yields
exactly one successful transition; and an attempt that finds the job
already `Running` fails without changing the state — a skip, not an
error. -/
theorem cas_exactly_one_dispatch (st : SchedState) (id n : Nat) (r : JobRecord)
    (hr : findJob st id = some r) (hs : r.state = JobState.scheduled)
    (hn : 1 ≤ n) :
    (casAttempts n st id).1 = 1 ∧
    (∀ (st2 : SchedState) (r2 : JobRecord), findJob st2 id = some r2 →
      r2.state = JobState.running → markRunning st2 id = (false, st2)) := by
  constructor
  · obtain ⟨m, rfl⟩ : ∃ m, n = m + 1 := ⟨n - 1, by omega⟩
    have hr2 : findJob (setJob st id { r with state := JobState.running }) id
        = some { r with state := JobState.running } :=
      lookupA_setA_self st.jobs id r _ hr
    have hrest := casAttempts_running m
      (setJob st id { r with state := JobState.running }) id
      { r with state := JobState.running } hr2 rfl
    simp [casAttempts, markRunning_scheduled st id r hr hs, hrest]
  · intro st2 r2 h2 hrun
    exact markRunning_not_scheduled st2 id r2 h2 (by rw [hrun]; simp)

/-- A sample registry: one scheduled interval job under id 1. -/
def sampleJob : JobRecord :=
  ⟨Schedule.interval 5, JobState.scheduled, some 5, none, false⟩

/-- A sample started scheduler owning `sampleJob`. -/
def sampleState : SchedState :=
  ⟨RunState.started, [(1, sampleJob)], [], 0⟩

/-- Closed instance of C1: three racing attempts on the sample job, exactly
one of which proceeds. -/
theorem cas_exactly_one_dispatch_witness :
    (casAttempts 3 sampleState 1).1 = 1 :=
  (cas_exactly_one_dispatch sampleState 1 3 sampleJob rfl rfl (by decide)).1

/-! ### Dispatcher lemmas -/

theorem findJob_setJob_ne (st : SchedState) (id j : Nat) (r2 : JobRecord)
    (h : j ≠ id) : findJob (setJob st id r2) j = findJob st j :=
  lookupA_setA_ne st.jobs id j r2 h

theorem findJob_delJob_ne (st : SchedState) (id j : Nat) (h : j ≠ id) :
    findJob (delJob st id) j = findJob st j :=
  lookupA_delA_ne st.jobs id j h

theorem findJob_delJob_self (st : SchedState) (id : Nat) :
    findJob (delJob st id) id = none :=
  lookupA_delA_self st.jobs id

theorem findJob_markIdle_ne (st : SchedState) (id : Nat) (nn : Option Nat)
    (j : Nat) (h : j ≠ id) : findJob (markIdle st id nn) j = findJob st j := by
  unfold markIdle
  cases hf : findJob st id with
  | none => rfl
  | some r => exact findJob_setJob_ne st id j _ h

theorem completeRun_absent (st : SchedState) (id now : Nat)
    (h : findJob st id = none) : completeRun st id now = ([], st) := by
  unfold completeRun
  rw [h]
  rfl

theorem findJob_markIdle_self (st : SchedState) (id : Nat) (nn : Option Nat)
    (r : JobRecord) (hf : findJob st id = some r) :
    findJob (markIdle st id nn) id
      = some { r with state := JobState.scheduled, nextFireAt := nn } := by
  unfold markIdle
  rw [hf]
  exact lookupA_setA_self st.jobs id r _ hf

theorem completeRun_events (st : SchedState) (id now : Nat) :
    ∀ ev ∈ (completeRun st id now).1, ∃ n k, ev = Event.notified id n k := by
  intro ev hev
  unfold completeRun at hev
  cases hf : findJob st id with
  | none =>
    rw [hf] at hev
    simp [completeRunAux] at hev
  | some r =>
    rw [hf] at hev
    simp only [completeRunAux] at hev
    by_cases hp : r.removalPending = true
    · rw [if_pos hp] at hev
      obtain ⟨n, _, _, _, _, hev⟩ :=
        dispatchNotifs_events _ id NotifyKind.onDone ev hev
      exact ⟨n.nid, _, hev⟩
    · rw [if_neg hp] at hev
      by_cases hos : (isOneShotSched r.schedule
          || (nextFire r.schedule now).isNone) = true
      · rw [if_pos hos] at hev
        simp only [List.mem_append] at hev
        rcases hev with hev | hev
        · obtain ⟨n, _, _, _, _, hev⟩ :=
            dispatchNotifs_events _ id NotifyKind.onRemoved ev hev
          exact ⟨n.nid, _, hev⟩
        · obtain ⟨n, _, _, _, _, hev⟩ :=
            dispatchNotifs_events _ id NotifyKind.onDone ev hev
          exact ⟨n.nid, _, hev⟩
      · rw [if_neg hos] at hev
        obtain ⟨n, _, _, _, _, hev⟩ :=
          dispatchNotifs_events _ id NotifyKind.onDone ev hev
        exact ⟨n.nid, _, hev⟩

theorem completeRun_findJob_ne (st : SchedState) (id now j : Nat)
    (hne : j ≠ id) : findJob (completeRun st id now).2 j = findJob st j := by
  unfold completeRun
  cases hf : findJob st id with
  | none => rfl
  | some r =>
    simp only [completeRunAux]
    by_cases hp : r.removalPending = true
    · rw [if_pos hp, findJob_dispatchNotifs, findJob_delJob_ne st id j hne]
    · rw [if_neg hp]
      by_cases hos : (isOneShotSched r.schedule
          || (nextFire r.schedule now).isNone) = true
      · rw [if_pos hos]
        show findJob (dispatchNotifs (dispatchNotifs (delJob st id) id
          NotifyKind.onRemoved).2 id NotifyKind.onDone).2 j = findJob st j
        rw [findJob_dispatchNotifs, findJob_dispatchNotifs,
          findJob_delJob_ne st id j hne]
      · rw [if_neg hos, findJob_dispatchNotifs, findJob_markIdle_ne st id _ j hne]

theorem dispatchJob_skip (st : SchedState) (id now : Nat) (st2 : SchedState)
    (h : markRunning st id = (false, st2)) : dispatchJob st id now = ([], st) := by
  unfold dispatchJob
  rw [h]
  rfl

theorem dispatchJob_won (st : SchedState) (id now : Nat) (st1 : SchedState)
    (h : markRunning st id = (true, st1)) :
    dispatchJob st id now =
      ((dispatchNotifs st1 id NotifyKind.onStart).1 ++ [Event.fired id now] ++
        (completeRun (dispatchNotifs st1 id NotifyKind.onStart).2 id now).1,
       (completeRun (dispatchNotifs st1 id NotifyKind.onStart).2 id now).2) := by
  unfold dispatchJob
  rw [h]
  rfl

theorem dispatchJob_events (st : SchedState) (j now : Nat) :
    ∀ ev ∈ (dispatchJob st j now).1,
      (∃ n k, ev = Event.notified j n k) ∨ ev = Event.fired j now := by
  intro ev hev
  cases hfind : findJob st j with
  | none =>
    rw [dispatchJob_skip st j now st (markRunning_absent st j hfind)] at hev
    simp at hev
  | some r =>
    by_cases hs : r.state = JobState.scheduled
    · rw [dispatchJob_won st j now _ (markRunning_scheduled st j r hfind hs)] at hev
      simp only [List.mem_append, List.mem_singleton] at hev
      rcases hev with (hev | hev) | hev
      · obtain ⟨n, _, _, _, _, hevq⟩ :=
          dispatchNotifs_events _ j NotifyKind.onStart ev hev
        exact Or.inl ⟨n.nid, _, hevq⟩
      · exact Or.inr hev
      · obtain ⟨n2, k2, hevq⟩ := completeRun_events _ j now ev hev
        exact Or.inl ⟨n2, k2, hevq⟩
    · rw [dispatchJob_skip st j now st (markRunning_not_scheduled st j r hfind hs)] at hev
      simp at hev

theorem dispatchJob_preserves_absent (st : SchedState) (j now id : Nat)
    (h : findJob st id = none) : findJob (dispatchJob st j now).2 id = none := by
  cases hfind : findJob st j with
  | none =>
    rw [dispatchJob_skip st j now st (markRunning_absent st j hfind)]
    exact h
  | some r =>
    by_cases hs : r.state = JobState.scheduled
    · have hne : id ≠ j := by
        intro he
        rw [he, hfind] at h
        cases h
      rw [dispatchJob_won st j now _ (markRunning_scheduled st j r hfind hs)]
      show findJob (completeRun (dispatchNotifs (setJob st j _) j
        NotifyKind.onStart).2 j now).2 id = none
      rw [completeRun_findJob_ne _ j now id hne, findJob_dispatchNotifs,
        findJob_setJob_ne st j id _ hne]
      exact h
    · rw [dispatchJob_skip st j now st (markRunning_not_scheduled st j r hfind hs)]
      exact h

theorem dispatchJob_no_events_absent (st : SchedState) (j now id : Nat)
    (h : findJob st id = none) :
    ∀ ev ∈ (dispatchJob st j now).1,
      (∀ t2, ev ≠ Event.fired id t2) ∧
      (∀ nid k, ev ≠ Event.notified id nid k) := by
  intro ev hev
  cases hfind : findJob st j with
  | none =>
    rw [dispatchJob_skip st j now st (markRunning_absent st j hfind)] at hev
    simp at hev
  | some r =>
    by_cases hs : r.state = JobState.scheduled
    · have hne : id ≠ j := by
        intro he
        rw [he, hfind] at h
        cases h
      rcases dispatchJob_events st j now ev hev with ⟨n, k, hevq⟩ | hevq
      · subst hevq
        constructor
        · intro t2 hcon
          cases hcon
        · intro nid k2 hcon
          injection hcon with h1 _ _
          exact hne h1.symm
      · subst hevq
        constructor
        · intro t2 hcon
          injection hcon with h1 _
          exact hne h1.symm
        · intro nid k2 hcon
          cases hcon
    · rw [dispatchJob_skip st j now st
        (markRunning_not_scheduled st j r hfind hs)] at hev
      simp at hev

theorem dispatchList_inert_absent (ids : List Nat) (st : SchedState)
    (now id : Nat) (h : findJob st id = none) :
    findJob (dispatchList ids st now).2 id = none ∧
    ∀ ev ∈ (dispatchList ids st now).1,
      (∀ t2, ev ≠ Event.fired id t2) ∧
      (∀ nid k, ev ≠ Event.notified id nid k) := by
  induction ids generalizing st with
  | nil =>
    refine ⟨h, ?_⟩
    intro ev hev
    simp [dispatchList] at hev
  | cons j rest ih =>
    have h1 := dispatchJob_preserves_absent st j now id h
    obtain ⟨h2, h3⟩ := ih (dispatchJob st j now).2 h1
    refine ⟨h2, ?_⟩
    intro ev hev
    simp only [dispatchList, List.mem_append] at hev
    rcases hev with hev | hev
    · exact dispatchJob_no_events_absent st j now id h ev hev
    · exact h3 ev hev

theorem tick_inert_absent (st : SchedState) (now id : Nat)
    (h : findJob st id = none) :
    findJob (tick st now).2 id = none ∧
    ∀ ev ∈ (tick st now).1,
      (∀ t2, ev ≠ Event.fired id t2) ∧
      (∀ nid k, ev ≠ Event.notified id nid k) := by
  unfold tick
  by_cases hr : st.runState = RunState.started
  · rw [if_pos hr]
    exact dispatchList_inert_absent (listDue st now) st now id h
  · rw [if_neg hr]
    refine ⟨h, ?_⟩
    intro ev hev
    simp at hev

theorem runTicks_inert_absent (ticks : List Nat) (st : SchedState) (id : Nat)
    (h : findJob st id = none) :
    findJob (runTicks st ticks).2 id = none ∧
    ∀ ev ∈ (runTicks st ticks).1,
      (∀ t2, ev ≠ Event.fired id t2) ∧
      (∀ nid k, ev ≠ Event.notified id nid k) := by
  induction ticks generalizing st with
  | nil =>
    refine ⟨h, ?_⟩
    intro ev hev
    simp [runTicks] at hev
  | cons now rest ih =>
    obtain ⟨h1, h2⟩ := tick_inert_absent st now id h
    obtain ⟨h3, h4⟩ := ih (tick st now).2 h1
    refine ⟨h3, ?_⟩
    intro ev hev
    simp only [runTicks, List.mem_append] at hev
    rcases hev with hev | hev
    · exact h2 ev hev
    · exact h4 ev hev

theorem not_mem_listDue_of_absent (st : SchedState) (now id : Nat)
    (h : findJob st id = none) : id ∉ listDue st now := by
  intro hmem
  unfold listDue at hmem
  simp only [List.mem_map, List.mem_filter] at hmem
  obtain ⟨⟨k, r⟩, ⟨hp, _⟩, hid⟩ := hmem
  simp only at hid
  subst hid
  exact lookupA_none_not_mem st.jobs k h r hp

/-- After the completion steps, the job itself is never `Running`: it was
either rescheduled to `Scheduled` or removed. -/
theorem completeRun_findJob_self (st : SchedState) (id now : Nat) (r2 : JobRecord)
    (h : findJob (completeRun st id now).2 id = some r2) :
    r2.state = JobState.scheduled ∨ findJob st id = none := by
  unfold completeRun at h
  cases hf : findJob st id with
  | none => exact Or.inr rfl
  | some r =>
    rw [hf] at h
    simp only [completeRunAux] at h
    by_cases hp : r.removalPending = true
    · rw [if_pos hp, findJob_dispatchNotifs, findJob_delJob_self] at h
      cases h
    · rw [if_neg hp] at h
      by_cases hos : (isOneShotSched r.schedule
          || (nextFire r.schedule now).isNone) = true
      · rw [if_pos hos] at h
        have h2 : findJob (dispatchNotifs (dispatchNotifs (delJob st id) id
            NotifyKind.onRemoved).2 id NotifyKind.onDone).2 id = some r2 := h
        rw [findJob_dispatchNotifs, findJob_dispatchNotifs,
          findJob_delJob_self] at h2
        cases h2
      · rw [if_neg hos, findJob_dispatchNotifs,
          findJob_markIdle_self st id _ r hf] at h
        injection h with h
        exact Or.inl (by rw [← h])

/-- A dispatched due one-shot job fires its body exactly once and leaves
the registry. -/
theorem dispatchJob_oneShot (st : SchedState) (id i now : Nat) (r : JobRecord)
    (hr : findJob st id = some r) (hsch : r.schedule = Schedule.oneShot i)
    (hst : r.state = JobState.scheduled) (hpend : r.removalPending = false) :
    (dispatchJob st id now).1.count (Event.fired id now) = 1 ∧
    findJob (dispatchJob st id now).2 id = none := by
  rw [dispatchJob_won st id now _ (markRunning_scheduled st id r hr hst)]
  have hfind2 : findJob (dispatchNotifs
      (setJob st id { r with state := JobState.running }) id
      NotifyKind.onStart).2 id = some { r with state := JobState.running } := by
    rw [findJob_dispatchNotifs]
    exact lookupA_setA_self st.jobs id r _ hr
  constructor
  · simp only [List.count_append]
    have c1 : ((dispatchNotifs (setJob st id { r with state := JobState.running })
        id NotifyKind.onStart).1).count (Event.fired id now) = 0 := by
      rw [List.count_eq_zero]
      intro hmem
      obtain ⟨n, _, _, _, _, heq⟩ :=
        dispatchNotifs_events _ id NotifyKind.onStart _ hmem
      cases heq
    have c2 : ((completeRun (dispatchNotifs
        (setJob st id { r with state := JobState.running }) id
        NotifyKind.onStart).2 id now).1).count (Event.fired id now) = 0 := by
      rw [List.count_eq_zero]
      intro hmem
      obtain ⟨n, k, heq⟩ := completeRun_events _ id now _ hmem
      cases heq
    rw [c1, c2]
    simp
  · show findJob (completeRun (dispatchNotifs
      (setJob st id { r with state := JobState.running }) id
      NotifyKind.onStart).2 id now).2 id = none
    unfold completeRun
    rw [hfind2]
    simp only [completeRunAux]
    rw [if_neg (by simp [hpend])]
    rw [if_pos (by simp [isOneShotSched, hsch])]
    show findJob (dispatchNotifs (dispatchNotifs (delJob _ id) id
      NotifyKind.onRemoved).2 id NotifyKind.onDone).2 id = none
    rw [findJob_dispatchNotifs, findJob_dispatchNotifs, findJob_delJob_self]

/-- C5: a one-shot job's trigger returns its instant only when still in the
future (the already-elapsed case is a quiet `None`, not an error); once
dispatched, the job body fires exactly once, the job is removed atomically,
and it is thereafter absent from `list_due`, from registry lookups, and is
never fired again by any later ticks. -/
theorem one_shot_fires_once (st : SchedState) (id i now : Nat) (r : JobRecord)
    (ticks : List Nat) (hr : findJob st id = some r)
    (hsch : r.schedule = Schedule.oneShot i)
    (hst : r.state = JobState.scheduled) (hpend : r.removalPending = false) :
    (∀ after, nextFire (Schedule.oneShot i) after
        = if after < i then some i else none) ∧
    (dispatchJob st id now).1.count (Event.fired id now) = 1 ∧
    findJob (dispatchJob st id now).2 id = none ∧
    lookupJob (dispatchJob st id now).2 id = none ∧
    (∀ now2, id ∉ listDue (dispatchJob st id now).2 now2) ∧
    (∀ ev ∈ (runTicks (dispatchJob st id now).2 ticks).1,
      ∀ t2, ev ≠ Event.fired id t2) := by
  obtain ⟨hcount, hgone⟩ := dispatchJob_oneShot st id i now r hr hsch hst hpend
  refine ⟨fun after => rfl, hcount, hgone, ?_, ?_, ?_⟩
  · unfold lookupJob
    rw [hgone]
    rfl
  · intro now2
    exact not_mem_listDue_of_absent _ now2 id hgone
  · intro ev hev t2
    exact ((runTicks_inert_absent ticks _ id hgone).2 ev hev).1 t2

/-- A sample one-shot job due at instant 10, under id 2. -/
def oneShotJob : JobRecord :=
  ⟨Schedule.oneShot 10, JobState.scheduled, some 10, none, false⟩

/-- A sample started scheduler owning `oneShotJob`. -/
def oneShotState : SchedState :=
  ⟨RunState.started, [(2, oneShotJob)], [], 0⟩

/-- Closed instance of C5: dispatching the sample one-shot job at its due
instant fires it once and removes it. -/
theorem one_shot_fires_once_witness :
    (dispatchJob oneShotState 2 10).1.count (Event.fired 2 10) = 1 ∧
    findJob (dispatchJob oneShotState 2 10).2 2 = none :=
  ⟨(one_shot_fires_once oneShotState 2 10 10 oneShotJob [] rfl rfl rfl rfl).2.1,
   (one_shot_fires_once oneShotState 2 10 10 oneShotJob [] rfl rfl rfl rfl).2.2.1⟩

/-! ### Removal lemmas and C6 -/

theorem setJob_notifs (st : SchedState) (id : Nat) (r2 : JobRecord) :
    (setJob st id r2).notifs = st.notifs := rfl

theorem delJob_notifs (st : SchedState) (id : Nat) :
    (delJob st id).notifs = st.notifs := rfl

theorem lookupJob_some (st : SchedState) (id : Nat) (r : JobRecord)
    (h : lookupJob st id = some r) :
    findJob st id = some r ∧ r.removalPending = false := by
  unfold lookupJob at h
  cases hf : findJob st id with
  | none =>
    rw [hf] at h
    cases h
  | some r0 =>
    rw [hf] at h
    simp only [lookupJobAux] at h
    by_cases hp : r0.removalPending = true
    · rw [if_pos hp] at h
      cases h
    · rw [if_neg hp] at h
      injection h with h2
      subst h2
      simp only [Bool.not_eq_true] at hp
      exact ⟨rfl, hp⟩

/-- C6: `remove(id)` fails with `NotFoundError` exactly when the id is
absent; on success the registry entry is logically gone before `remove`
returns, the body of a `Running` job is never interrupted (its record
survives, marked, until the completion steps delete it), and the
`OnRemoved` callbacks for the id — and nothing else — fire inside the
`remove` call itself. -/
theorem remove_semantics (st : SchedState) (id : Nat) (now : Nat) :
    (removeJob st id = Except.error SchedulerError.notFound
      ↔ lookupJob st id = none) ∧
    (∀ r, lookupJob st id = some r →
      ∃ ev st2, removeJob st id = Except.ok (ev, st2) ∧
        lookupJob st2 id = none ∧
        (∀ n ∈ st.notifs, n.jobId = id → n.kind = NotifyKind.onRemoved →
          n.active = true → Event.notified id n.nid NotifyKind.onRemoved ∈ ev) ∧
        (∀ ev2 ∈ ev, ∃ n2, ev2 = Event.notified id n2 NotifyKind.onRemoved) ∧
        (r.state = JobState.running →
          findJob st2 id = some { r with removalPending := true } ∧
          findJob (completeRun st2 id now).2 id = none) ∧
        (r.state ≠ JobState.running → findJob st2 id = none)) := by
  constructor
  · unfold removeJob
    cases h : lookupJob st id with
    | none => simp [removeJobAux]
    | some r => simp [removeJobAux]
  · intro r hlook
    obtain ⟨hfa, hpend⟩ := lookupJob_some st id r hlook
    unfold removeJob
    rw [hlook]
    simp only [removeJobAux]
    by_cases hrun : r.state = JobState.running
    · rw [if_pos hrun]
      refine ⟨(dispatchNotifs (setJob st id { r with removalPending := true })
          id NotifyKind.onRemoved).1,
        (dispatchNotifs (setJob st id { r with removalPending := true })
          id NotifyKind.onRemoved).2, rfl, ?_, ?_, ?_, ?_, ?_⟩
      · have hf2 : findJob (dispatchNotifs
            (setJob st id { r with removalPending := true }) id
            NotifyKind.onRemoved).2 id
            = some { r with removalPending := true } := by
          rw [findJob_dispatchNotifs]
          exact lookupA_setA_self st.jobs id r _ hfa
        unfold lookupJob
        rw [hf2]
        rfl
      · intro n hmem hj hk ha
        exact dispatchNotifs_fires_all
          (setJob st id { r with removalPending := true }) id
          NotifyKind.onRemoved n hmem hj hk ha
      · intro ev2 hev2
        obtain ⟨n, _, _, _, _, heq⟩ := dispatchNotifs_events
          (setJob st id { r with removalPending := true }) id
          NotifyKind.onRemoved ev2 hev2
        exact ⟨n.nid, heq⟩
      · intro _
        have hf2 : findJob (dispatchNotifs
            (setJob st id { r with removalPending := true }) id
            NotifyKind.onRemoved).2 id
            = some { r with removalPending := true } := by
          rw [findJob_dispatchNotifs]
          exact lookupA_setA_self st.jobs id r _ hfa
        refine ⟨hf2, ?_⟩
        unfold completeRun
        rw [hf2]
        simp only [completeRunAux]
        rw [if_pos trivial]
        rw [findJob_dispatchNotifs, findJob_delJob_self]
      · intro hcon
        exact absurd hrun hcon
    · rw [if_neg hrun]
      have hf2 : findJob (dispatchNotifs (delJob st id) id
          NotifyKind.onRemoved).2 id = none := by
        rw [findJob_dispatchNotifs, findJob_delJob_self]
      refine ⟨(dispatchNotifs (delJob st id) id NotifyKind.onRemoved).1,
        (dispatchNotifs (delJob st id) id NotifyKind.onRemoved).2,
        rfl, ?_, ?_, ?_, ?_, fun _ => hf2⟩
      · unfold lookupJob
        rw [hf2]
        rfl
      · intro n hmem hj hk ha
        exact dispatchNotifs_fires_all (delJob st id) id
          NotifyKind.onRemoved n hmem hj hk ha
      · intro ev2 hev2
        obtain ⟨n, _, _, _, _, heq⟩ := dispatchNotifs_events (delJob st id) id
          NotifyKind.onRemoved ev2 hev2
        exact ⟨n.nid, heq⟩
      · intro hcon
        exact absurd hcon hrun

/-- A sample notification: an `OnRemoved` no-op callback on job 1. -/
def sampleNotif : Notification :=
  ⟨0, 1, NotifyKind.onRemoved, CbAct.noop, true⟩

/-- `sampleState` with `sampleNotif` registered. -/
def sampleStateN : SchedState :=
  ⟨RunState.started, [(1, sampleJob)], [sampleNotif], 1⟩

/-- Closed instance of C6: removing the present, non-running sample job
succeeds, leaves it logically gone, and fires its `OnRemoved` callback. -/
theorem remove_semantics_witness :
    lookupJob sampleStateN 1 = some sampleJob ∧
    ∃ ev st2, removeJob sampleStateN 1 = Except.ok (ev, st2) ∧
      lookupJob st2 1 = none ∧
      (∀ n ∈ sampleStateN.notifs, n.jobId = 1 → n.kind = NotifyKind.onRemoved →
        n.active = true → Event.notified 1 n.nid NotifyKind.onRemoved ∈ ev) ∧
      (∀ ev2 ∈ ev, ∃ n2, ev2 = Event.notified 1 n2 NotifyKind.onRemoved) ∧
      (sampleJob.state = JobState.running →
        findJob st2 1 = some { sampleJob with removalPending := true } ∧
        findJob (completeRun st2 1 0).2 1 = none) ∧
      (sampleJob.state ≠ JobState.running → findJob st2 1 = none) :=
  ⟨rfl, (remove_semantics sampleStateN 1 0).2 sampleJob rfl⟩

/-! ### Notification lemmas, C7, C8, C10 -/

theorem notifAdd_stores (st : SchedState) (jobId : Nat) (kind : NotifyKind)
    (cb : CbAct) :
    ∃ n, n ∈ (notifAdd st jobId kind cb).2.notifs ∧
      n.nid = (notifAdd st jobId kind cb).1 ∧ n.jobId = jobId ∧
      n.kind = kind ∧ n.active = true := by
  refine ⟨⟨st.nextNotifId, jobId, kind, cb, true⟩, ?_, rfl, rfl, rfl, rfl⟩
  simp [notifAdd]

/-- C7: Notification Registry `add` always succeeds (it is a total
operation), storing the notification detached even when the job id is not
in the Job Registry; if the job is never added, the loop never produces any
event for that job — the notification stays inert without being an error. -/
theorem notification_add_always (st : SchedState) (jobId : Nat)
    (kind : NotifyKind) (cb : CbAct) (ticks : List Nat)
    (habsent : findJob st jobId = none) :
    (∃ n, n ∈ (notifAdd st jobId kind cb).2.notifs ∧
      n.nid = (notifAdd st jobId kind cb).1 ∧ n.jobId = jobId ∧
      n.kind = kind ∧ n.active = true) ∧
    findJob (notifAdd st jobId kind cb).2 jobId = none ∧
    (∀ ev ∈ (runTicks (notifAdd st jobId kind cb).2 ticks).1,
      (∀ t2, ev ≠ Event.fired jobId t2) ∧
      (∀ nid k, ev ≠ Event.notified jobId nid k)) := by
  have h2 : findJob (notifAdd st jobId kind cb).2 jobId = none := habsent
  exact ⟨notifAdd_stores st jobId kind cb, h2,
    fun ev hev => (runTicks_inert_absent ticks _ jobId h2).2 ev hev⟩

/-- A scheduler with an empty job registry. -/
def emptySched : SchedState := ⟨RunState.started, [], [], 0⟩

/-- Closed instance of C7: adding a notification for the never-added job 7
succeeds, stores it, and two subsequent ticks stay silent for job 7. -/
theorem notification_add_always_witness :
    findJob emptySched 7 = none ∧
    ((∃ n, n ∈ (notifAdd emptySched 7 NotifyKind.onStart CbAct.noop).2.notifs ∧
      n.nid = (notifAdd emptySched 7 NotifyKind.onStart CbAct.noop).1 ∧
      n.jobId = 7 ∧ n.kind = NotifyKind.onStart ∧ n.active = true) ∧
    findJob (notifAdd emptySched 7 NotifyKind.onStart CbAct.noop).2 7 = none ∧
    (∀ ev ∈ (runTicks (notifAdd emptySched 7 NotifyKind.onStart
        CbAct.noop).2 [1, 2]).1,
      (∀ t2, ev ≠ Event.fired 7 t2) ∧
      (∀ nid k, ev ≠ Event.notified 7 nid k))) :=
  ⟨rfl, notification_add_always emptySched 7 NotifyKind.onStart CbAct.noop [1, 2] rfl⟩

theorem notifRemove_true_iff (st : SchedState) (j n : Nat) :
    (notifRemove st j n).1 = true ↔ notifActive st j n = true := by
  unfold notifRemove
  by_cases h : notifActive st j n = true
  · rw [if_pos h]
    simp [h]
  · rw [if_neg h]
    simp [h]

theorem notifActive_after_remove (st : SchedState) (j n : Nat) :
    notifActive (notifRemove st j n).2 j n = false := by
  unfold notifRemove
  by_cases h : notifActive st j n = true
  · rw [if_pos h]
    unfold notifActive
    rw [List.any_map, List.any_eq_false]
    intro x hx
    by_cases hm : (x.nid == n && x.jobId == j) = true
    · simp [Function.comp, hm]
    · simp [Function.comp, hm]
  · rw [if_neg h]
    simpa using h

theorem notifActive_mono_runCb (a : CbAct) (st : SchedState) (j n : Nat)
    (h : notifActive st j n = false) : notifActive (runCb a st) j n = false := by
  cases a with
  | noop => exact h
  | removeNotif j2 n2 =>
    show notifActive (notifRemove st j2 n2).2 j n = false
    unfold notifRemove
    by_cases hc : notifActive st j2 n2 = true
    · rw [if_pos hc]
      unfold notifActive at h ⊢
      rw [List.any_map, List.any_eq_false]
      rw [List.any_eq_false] at h
      intro x hx
      by_cases hm : (x.nid == n2 && x.jobId == j2) = true
      · simp only [Function.comp, hm, if_true]
        intro hcon
        simp only [Bool.and_eq_true, beq_iff_eq] at hcon
        exact absurd hcon.2 (by simp)
      · simp only [Function.comp, hm, Bool.false_eq_true, if_false]
        exact h x hx
    · rw [if_neg hc]
      exact h

theorem foldl_runCb_removes (l : List Notification) (st : SchedState)
    (j nid : Nat)
    (h : (∃ n ∈ l, n.callback = CbAct.removeNotif j nid) ∨
      notifActive st j nid = false) :
    notifActive (l.foldl (fun s n => runCb n.callback s) st) j nid = false := by
  induction l generalizing st with
  | nil =>
    rcases h with ⟨n, hn, _⟩ | h
    · simp at hn
    · exact h
  | cons c rest ih =>
    simp only [List.foldl_cons]
    rcases h with ⟨n, hn, hcb⟩ | h
    · rcases List.mem_cons.1 hn with he | hmem
      · subst he
        apply ih
        right
        rw [hcb]
        exact notifActive_after_remove st j nid
      · exact ih _ (Or.inl ⟨n, hmem, hcb⟩)
    · exact ih _ (Or.inr (notifActive_mono_runCb _ st j nid h))

theorem dispatch_no_fire_inactive (st : SchedState) (j nid : Nat)
    (k : NotifyKind) (h : notifActive st j nid = false) :
    ∀ ev ∈ (dispatchNotifs st j k).1, ∀ k2,
      ev ≠ Event.notified j nid k2 := by
  intro ev hev k2 hcon
  obtain ⟨n, hmem, hj, hk, ha, heq⟩ := dispatchNotifs_events st j k ev hev
  rw [heq] at hcon
  injection hcon with h1 h2 h3
  unfold notifActive at h
  rw [List.any_eq_false] at h
  have hx := h n hmem
  simp [h2, hj, ha] at hx

/-- C8: notification `remove` returns `true` exactly when a matching active
notification existed; it is idempotent (the second call returns `false`,
not an error); a notification deactivated before its triggering event never
fires; and removing a notification from within a callback of the same
dispatch is permitted — the snapshot taken at dispatch start still fires in
full (including the remover itself) while the removed notification is
deactivated for every later dispatch. -/
theorem notification_remove_semantics (st : SchedState) (j nid : Nat)
    (k : NotifyKind) :
    ((notifRemove st j nid).1 = true ↔ notifActive st j nid = true) ∧
    notifActive (notifRemove st j nid).2 j nid = false ∧
    (notifRemove (notifRemove st j nid).2 j nid).1 = false ∧
    (notifActive st j nid = false →
      ∀ ev ∈ (dispatchNotifs st j k).1, ∀ k2,
        ev ≠ Event.notified j nid k2) ∧
    (∀ n ∈ st.notifs, n.jobId = j → n.kind = k → n.active = true →
      n.callback = CbAct.removeNotif j nid →
      Event.notified j n.nid k ∈ (dispatchNotifs st j k).1 ∧
      notifActive (dispatchNotifs st j k).2 j nid = false) := by
  refine ⟨notifRemove_true_iff st j nid, notifActive_after_remove st j nid,
    ?_, dispatch_no_fire_inactive st j nid k, ?_⟩
  · have h := notifActive_after_remove st j nid
    have hiff := notifRemove_true_iff (notifRemove st j nid).2 j nid
    cases hb : (notifRemove (notifRemove st j nid).2 j nid).1 with
    | false => rfl
    | true =>
      have := hiff.1 hb
      rw [h] at this
      cases this
  · intro n hmem hj hk ha hcb
    refine ⟨dispatchNotifs_fires_all st j k n hmem hj hk ha, ?_⟩
    apply foldl_runCb_removes
    left
    exact ⟨n, by simp [List.mem_filter, hmem, hj, hk, ha], hcb⟩

/-- A notification that removes itself from within its own `OnStart`
callback, as in the example. -/
def selfRemNotif : Notification :=
  ⟨5, 1, NotifyKind.onStart, CbAct.removeNotif 1 5, true⟩

/-- A started scheduler owning `sampleJob` and `selfRemNotif`. -/
def selfRemState : SchedState :=
  ⟨RunState.started, [(1, sampleJob)], [selfRemNotif], 6⟩

/-- Closed instance of C8: the self-removing notification still fires in
the dispatch that runs its callback, and is inactive afterwards. -/
theorem notification_remove_semantics_witness :
    Event.notified 1 5 NotifyKind.onStart
      ∈ (dispatchNotifs selfRemState 1 NotifyKind.onStart).1 ∧
    notifActive (dispatchNotifs selfRemState 1 NotifyKind.onStart).2 1 5
      = false :=
  (notification_remove_semantics selfRemState 1 5 NotifyKind.onStart).2.2.2.2
    selfRemNotif (by decide) rfl rfl rfl rfl

/-- C10: cloning a `Job` or `JobScheduler` handle yields an aliasing handle
to the same underlying entity: the guid is unchanged, operations through
the cloned handles are the very same operations on the shared state, and a
removal performed through cloned handles is observable through the original
handle's query. -/
theorem clone_aliases_same_job (j : JobHandle) (s : SchedulerHandle)
    (st : SchedState) (nid : Nat) :
    (cloneJob j).guid = j.guid ∧
    onStartNotifRemoveVia (cloneScheduler s) (cloneJob j) st nid
      = onStartNotifRemoveVia s j st nid ∧
    notifActive (onStartNotifRemoveVia (cloneScheduler s) (cloneJob j) st
      nid).2 j.guid nid = false :=
  ⟨rfl, rfl, notifActive_after_remove st j.guid nid⟩

/-! ### Shutdown lemmas and C9 -/

theorem shutdown_not_started (st : SchedState) (now : Nat)
    (h : st.runState ≠ RunState.started) :
    shutdown st now = Except.error SchedulerError.notRunning := by
  unfold shutdown
  rw [if_neg h]

theorem tick_not_started (st : SchedState) (now : Nat)
    (h : st.runState ≠ RunState.started) : tick st now = ([], st) := by
  unfold tick
  rw [if_neg h]

theorem drainOne_findJob_ne (st : SchedState) (id now j : Nat)
    (hne : j ≠ id) : findJob (drainOne st id now).2 j = findJob st j := by
  unfold drainOne
  cases hf : findJob st id with
  | none => rfl
  | some r =>
    simp only [drainOneAux]
    by_cases hs : r.state = JobState.running
    · rw [if_pos hs]
      exact completeRun_findJob_ne st id now j hne
    · rw [if_neg hs]

theorem drainOne_self_not_running (st : SchedState) (id now : Nat)
    (r2 : JobRecord) (h : findJob (drainOne st id now).2 id = some r2) :
    r2.state ≠ JobState.running := by
  unfold drainOne at h
  cases hf : findJob st id with
  | none =>
    rw [hf] at h
    simp only [drainOneAux] at h
    rw [hf] at h
    cases h
  | some r =>
    rw [hf] at h
    simp only [drainOneAux] at h
    by_cases hs : r.state = JobState.running
    · rw [if_pos hs] at h
      rcases completeRun_findJob_self st id now r2 h with hsch | hnone
      · rw [hsch]
        intro hcon
        cases hcon
      · rw [hnone] at hf
        cases hf
    · rw [if_neg hs] at h
      rw [hf] at h
      injection h with h2
      rw [← h2]
      exact hs

theorem drainOne_not_running (st : SchedState) (c now j : Nat)
    (r2 : JobRecord) (h : findJob (drainOne st c now).2 j = some r2)
    (hrun : r2.state = JobState.running) :
    j ≠ c ∧ findJob st j = some r2 := by
  by_cases hne : j = c
  · subst hne
    exact absurd hrun (drainOne_self_not_running st j now r2 h)
  · rw [drainOne_findJob_ne st c now j hne] at h
    exact ⟨hne, h⟩

theorem drainList_no_running (ids : List Nat) (st : SchedState) (now : Nat)
    (hcover : ∀ id r, findJob st id = some r →
      r.state = JobState.running → id ∈ ids) :
    ∀ id r, findJob (drainList ids st now).2 id = some r →
      r.state ≠ JobState.running := by
  induction ids generalizing st with
  | nil =>
    intro id r h hcon
    exact absurd (hcover id r h hcon) (List.not_mem_nil id)
  | cons c rest ih =>
    intro id r h
    simp only [drainList] at h
    refine ih (drainOne st c now).2 ?_ id r h
    intro i2 r3 h3 hrun3
    obtain ⟨hne, hst⟩ := drainOne_not_running st c now i2 r3 h3 hrun3
    rcases List.mem_cons.1 (hcover i2 r3 hst hrun3) with he | hm
    · exact absurd he hne
    · exact hm

theorem drainOne_events (st : SchedState) (id now : Nat) :
    ∀ ev ∈ (drainOne st id now).1, ∃ n k, ev = Event.notified id n k := by
  unfold drainOne
  cases hf : findJob st id with
  | none =>
    intro ev hev
    simp [drainOneAux] at hev
  | some r =>
    simp only [drainOneAux]
    by_cases hs : r.state = JobState.running
    · rw [if_pos hs]
      exact completeRun_events st id now
    · rw [if_neg hs]
      intro ev hev
      simp at hev

theorem drainList_no_hook (ids : List Nat) (st : SchedState) (now : Nat) :
    ∀ ev ∈ (drainList ids st now).1, ev ≠ Event.hookRan := by
  induction ids generalizing st with
  | nil =>
    intro ev hev
    simp [drainList] at hev
  | cons c rest ih =>
    intro ev hev
    simp only [drainList, List.mem_append] at hev
    rcases hev with hev | hev
    · obtain ⟨n, k, heq⟩ := drainOne_events st c now ev hev
      rw [heq]
      intro hcon
      cases hcon
    · exact ih _ ev hev

/-- C9: `shutdown()` from `Started` transitions through `ShuttingDown`,
drains every `Running` job to `Scheduled`/removed, then runs the shutdown
hook exactly once — as the final event, after the drain — and ends
`Stopped`, where the loop dispatches nothing; called outside `Started`
(including a second call when already `Stopped`) it fails with
`NotRunningError`, so the hook is never re-run. -/
theorem shutdown_semantics (st : SchedState) (now : Nat) :
    (st.runState ≠ RunState.started →
      shutdown st now = Except.error SchedulerError.notRunning) ∧
    (st.runState = RunState.started →
      ∃ ev st2, shutdown st now = Except.ok (ev, st2) ∧
        st2.runState = RunState.stopped ∧
        (∀ id r, findJob st2 id = some r → r.state ≠ JobState.running) ∧
        ev.count Event.hookRan = 1 ∧
        ev.getLast? = some Event.hookRan ∧
        (∀ now2, tick st2 now2 = ([], st2)) ∧
        shutdown st2 now = Except.error SchedulerError.notRunning) := by
  constructor
  · exact shutdown_not_started st now
  · intro h
    unfold shutdown
    rw [if_pos h]
    refine ⟨(drainList (({ st with runState := RunState.shuttingDown} :
        SchedState).jobs.map fun p => p.1)
        { st with runState := RunState.shuttingDown } now).1 ++ [Event.hookRan],
      { (drainList (({ st with runState := RunState.shuttingDown} :
          SchedState).jobs.map fun p => p.1)
          { st with runState := RunState.shuttingDown } now).2 with
        runState := RunState.stopped },
      rfl, rfl, ?_, ?_, ?_, ?_, ?_⟩
    · intro id r hfind hcon
      have h2 : findJob (drainList (({ st with runState :=
          RunState.shuttingDown} : SchedState).jobs.map fun p => p.1)
          { st with runState := RunState.shuttingDown } now).2 id
          = some r := hfind
      refine absurd hcon (drainList_no_running _ _ now ?_ id r h2)
      intro i2 r2 hf2 _
      exact lookupA_mem_map_fst _ i2 r2 hf2
    · rw [List.count_append]
      have hz : ((drainList (({ st with runState := RunState.shuttingDown} :
          SchedState).jobs.map fun p => p.1)
          { st with runState := RunState.shuttingDown } now).1).count
          Event.hookRan = 0 :=
        List.count_eq_zero.mpr
          (fun hmem => drainList_no_hook _ _ now Event.hookRan hmem rfl)
      rw [hz]
      simp
    · exact List.getLast?_concat _
    · intro now2
      exact tick_not_started _ now2 (fun hcon => by cases hcon)
    · exact shutdown_not_started _ now (fun hcon => by cases hcon)

/-- A job caught mid-execution when shutdown is requested. -/
def runningJob : JobRecord :=
  ⟨Schedule.interval 5, JobState.running, some 15, none, false⟩

/-- A started scheduler with `runningJob` in flight. -/
def runningState : SchedState :=
  ⟨RunState.started, [(3, runningJob)], [], 0⟩

/-- Closed instance of C9: shutting down `runningState` drains the running
job, runs the hook once as the final event, and ends `Stopped`. -/
theorem shutdown_semantics_witness :
    ∃ ev st2, shutdown runningState 20 = Except.ok (ev, st2) ∧
      st2.runState = RunState.stopped ∧
      (∀ id r, findJob st2 id = some r → r.state ≠ JobState.running) ∧
      ev.count Event.hookRan = 1 ∧
      ev.getLast? = some Event.hookRan ∧
      (∀ now2, tick st2 now2 = ([], st2)) ∧
      shutdown st2 20 = Except.error SchedulerError.notRunning :=
  (shutdown_semantics runningState 20).2 rfl

end TokioCron
